import Mathlib

/-!
Verification development for the Exodus II reading utilities of this
repository.  The two source files are

  * `src/ml/nodal_variables_from_efile.py`, function `read_exodus_file`,
  * `src/ml/total_variables_in_efile.py`, function `inspect_exodus_file`.

Both read a netCDF-structured file through the `netCDF4` library.  The
embedding below models the netCDF dataset as explicit finite association
lists (dimension table plus variable tables, split by the shape/kind of
the stored data), and models each Python operation on the dataset by a
Lean function of the same name wherever Lean allows it.  Numeric scalars
stored in the file (times, coordinates, nodal values) are only ever moved
around by the code, never computed with, so they are modelled by `Int`.
A Python `KeyError`/`IndexError`/`UnicodeDecodeError` becomes an
`Except` error value; an operation the Python code cannot fail on is a
total Lean function.
-/

set_option autoImplicit false

namespace Exodus

/-- One element of a fixed-width variable-name row, as `netCDF4` hands it
to the Python code: either a one-byte `np.bytes_` value (the usual `S1`
character of an Exodus name table) carrying the raw byte, or some other
scalar whose `str()` rendering is the given string. -/
inductive CodeUnit where
  | byte (b : Nat)
  | other (s : String)
deriving Repr, DecidableEq

/-- A fixed-width name row: a list of positions, `none` standing for a
masked (invalid/padding) position of the numpy masked array, `some u`
for an unmasked code unit. -/
abbrev NameRow := List (Option CodeUnit)

/-- The Python exceptions the modelled code can raise. -/
inductive ReadError where
  | keyError (name : String)
  | indexError (i : Nat)
  | unicodeDecodeError
deriving Repr, DecidableEq

/-- The netCDF dataset as the Python code observes it:
`dims` models `dataset.dimensions` (name to declared size); the three
variable tables together model `dataset.variables`, split by the kind of
data stored there: one-dimensional numeric variables (`time_whole`,
`coordx`, `coordy`, `coordz`), two-dimensional numeric variables
(`vals_nod_var<k>`, indexed time step by node), and two-dimensional
character name tables (`name_nod_var`, `name_glo_var`, `name_elem_var`).
In a well-formed Exodus file each of these names carries the stated kind,
so a membership test such as `'coordz' in dataset.variables` is modelled
by a lookup in the table of the kind that name carries. -/
structure Dataset where
  dims : List (String × Nat)
  vars1D : List (String × List Int)
  vars2D : List (String × List (List Int))
  nameVars : List (String × List NameRow)
deriving Repr

/-- Model of `dataset.dimensions[n].size`, as an optional lookup. -/
def Dataset.lookupDim (d : Dataset) (n : String) : Option Nat :=
  (d.dims.find? (fun p => p.1 == n)).map (fun p => p.2)

/-- Lookup of a one-dimensional numeric variable (`dataset.variables[n][:]`). -/
def Dataset.lookup1D (d : Dataset) (n : String) : Option (List Int) :=
  (d.vars1D.find? (fun p => p.1 == n)).map (fun p => p.2)

/-- Lookup of a two-dimensional numeric variable (`dataset.variables[n][:]`). -/
def Dataset.lookup2D (d : Dataset) (n : String) : Option (List (List Int)) :=
  (d.vars2D.find? (fun p => p.1 == n)).map (fun p => p.2)

/-- Lookup of a character name table (`dataset["n"]` for a name table). -/
def Dataset.lookupNames (d : Dataset) (n : String) : Option (List NameRow) :=
  (d.nameVars.find? (fun p => p.1 == n)).map (fun p => p.2)

/-! ### Name-row decoding

`read_exodus_file`, lines 26-29: the row is replaced by its
`compressed()` form when `np.ma.is_masked` holds of it; an unmasked row
has no masked position, so taking the compression unconditionally is the
same function.  Each remaining code unit `c` is then decoded as
`c.tobytes().decode("utf-8")` when it is an `np.bytes_` (strict decoding:
a lone byte at or above `0x80` is not valid UTF-8 and raises
`UnicodeDecodeError`), and as `str(c)` otherwise; the pieces are
concatenated and the surrounding whitespace stripped. -/

/-- Model of `row.compressed()`: the unmasked code units, in order. -/
def compressRow (row : NameRow) : List CodeUnit :=
  row.filterMap id

/-- The whitespace set of Python's `str.strip()` (the ASCII part:
space, tab, newline, carriage return, vertical tab, form feed). -/
def isStripChar (c : Char) : Bool :=
  c == ' ' || c == '\t' || c == '\n' || c == '\r' || c == Char.ofNat 11 || c == Char.ofNat 12

/-- Python's `str.strip()`: drop leading and trailing whitespace.
Defined structurally over the character list so that it evaluates by
kernel reduction. -/
def pyStrip (s : String) : String :=
  ⟨((s.data.dropWhile isStripChar).reverse.dropWhile isStripChar).reverse⟩

/-- Strict UTF-8 decoding of one code unit, as in `read_exodus_file`
line 28: `c.tobytes().decode("utf-8")` on a one-byte `np.bytes_` succeeds
exactly when the byte is below `0x80`, and `str(c)` on anything else is
total. -/
def decodeUnitStrict : CodeUnit → Except ReadError String
  | .byte b => if b < 128 then .ok (String.singleton (Char.ofNat b)) else .error .unicodeDecodeError
  | .other s => .ok s

/-- Sequential strict decoding of a list of code units, failing at the
first failing unit (the generator expression inside `"".join(...)`). -/
def decodeUnitsStrict : List CodeUnit → Except ReadError (List String)
  | [] => .ok []
  | u :: us =>
    match decodeUnitStrict u with
    | .error e => .error e
    | .ok s =>
      match decodeUnitsStrict us with
      | .error e => .error e
      | .ok ss => .ok (s :: ss)

/-- Decoding of one name row in `read_exodus_file` (lines 27-28):
compress, strictly decode every code unit, join and strip. -/
def decodeRowStrict (row : NameRow) : Except ReadError String :=
  match decodeUnitsStrict (compressRow row) with
  | .error e => .error e
  | .ok ss => .ok (pyStrip (String.join ss))

/-! ### Name-row decoding in `inspect_exodus_file`

`inspect_exodus_file`, lines 23-34: the same compression, but the byte
decode passes `errors="ignore"`, so an invalid byte is dropped instead of
raising; a `try`/`except` around the row substitutes `Var_<i+1>` if
anything in the row decode were to raise. -/

/-- Ignore-mode UTF-8 decoding of one code unit
(`c.tobytes().decode("utf-8", errors="ignore")` or `str(c)`): total, an
invalid byte decodes to the empty string. -/
def decodeUnitIgnore : CodeUnit → String
  | .byte b => if b < 128 then String.singleton (Char.ofNat b) else ""
  | .other s => s

/-- Ignore-mode decoding of one row: compress, decode each unit, join,
strip.  Total, since every operation involved is total. -/
def decodeRowIgnore (row : NameRow) : String :=
  pyStrip (String.join ((compressRow row).map decodeUnitIgnore))

/-- The body of the `try` block of `inspect_exodus_file` lines 27-31 as a
fallible computation.  Every operation in that block is total (the decode
ignores errors, `str()` and `join` and `strip` cannot raise), so the
computation always succeeds with the ignore-mode decode of the row. -/
def decodeRowInspectE (row : NameRow) : Except ReadError String :=
  .ok (decodeRowIgnore row)

/-- One row of the decode loop of `inspect_exodus_file` (lines 23-34),
`i` the 0-based row index: the `try`/`except` substitutes the placeholder
`Var_<i+1>` on a decode failure. -/
def inspectDecodeRow (i : Nat) (row : NameRow) : String :=
  match decodeRowInspectE row with
  | .ok s => s
  | .error _ => "Var_" ++ toString (i + 1)

/-- The decode loop of `inspect_exodus_file` over a whole name table,
starting at row index `i`. -/
def inspectDecodeTableAux (i : Nat) : List NameRow → List String
  | [] => []
  | row :: rows => inspectDecodeRow i row :: inspectDecodeTableAux (i + 1) rows

/-- Decoded names of a whole name table in `inspect_exodus_file`. -/
def inspectDecodeTable (rows : List NameRow) : List String :=
  inspectDecodeTableAux 0 rows

/-! ### The nodal-variable name loop of `read_exodus_file` -/

/-- Iteration `i` of the name loop (`read_exodus_file` lines 26-29):
index row `i` of `dataset["name_nod_var"]` and strictly decode it.  A
missing `name_nod_var` variable or an out-of-range row index raises
(`netCDF4` raises an index error naming the variable; the distinction
between the Python exception classes is not observed by the code). -/
def readNodVarName (d : Dataset) (i : Nat) : Except ReadError String :=
  match d.lookupNames "name_nod_var" with
  | none => .error (.keyError "name_nod_var")
  | some rows =>
    match rows.get? i with
    | none => .error (.indexError i)
    | some row => decodeRowStrict row

/-- The name loop over a list of row indices, stopping at the first
raised exception. -/
def readNamesLoop (d : Dataset) : List Nat → Except ReadError (List String)
  | [] => .ok []
  | i :: rest =>
    match readNodVarName d i with
    | .error e => .error e
    | .ok s =>
      match readNamesLoop d rest with
      | .error e => .error e
      | .ok ss => .ok (s :: ss)

/-- The loop `for i in range(num_nod_var)` of `read_exodus_file` lines 26-29. -/
def readNodVarNames (d : Dataset) (n : Nat) : Except ReadError (List String) :=
  readNamesLoop d (List.range n)

/-! ### The value-array loop of `read_exodus_file`

Lines 32-38: `node_data` is a Python dict, filled by
`node_data[name] = dataset.variables[var_name][:]` whenever the
conventionally named field is present, a printed warning otherwise.  A
Python dict assignment overwrites the value of an existing key in place
(keeping its insertion position) and appends a fresh key at the end. -/

/-- Key membership in the association-list model of a Python dict. -/
def dictMem : List (String × List (List Int)) → String → Bool
  | [], _ => false
  | p :: t, k => p.1 == k || dictMem t k

/-- Key lookup (first matching entry) in the association-list model of a
Python dict. -/
def dictLookup : List (String × List (List Int)) → String → Option (List (List Int))
  | [], _ => none
  | p :: t, k => if p.1 == k then some p.2 else dictLookup t k

/-- Python dict assignment `m[k] = v`: overwrite in place when the key is
present, append otherwise. -/
def dictInsert (m : List (String × List (List Int))) (k : String) (v : List (List Int)) :
    List (String × List (List Int)) :=
  if dictMem m k then m.map (fun p => if p.1 == k then (k, v) else p)
  else m ++ [(k, v)]

/-- The conventional value-array field name `vals_nod_var<k>`. -/
def valsName (k : Nat) : String :=
  "vals_nod_var" ++ toString k

/-- The loop `for i, name in enumerate(nod_var_names)` of lines 33-38,
carrying the current 0-based index, the dict built so far and the
warnings printed so far (a warning is recorded here by the name of the
missing field). -/
def buildNodeDataAux (d : Dataset) :
    Nat → List String → List (String × List (List Int)) → List String →
    List (String × List (List Int)) × List String
  | _, [], acc, warns => (acc, warns)
  | i, name :: rest, acc, warns =>
    match d.lookup2D (valsName (i + 1)) with
    | some arr => buildNodeDataAux d (i + 1) rest (dictInsert acc name arr) warns
    | none => buildNodeDataAux d (i + 1) rest acc (warns ++ [valsName (i + 1)])

/-- The completed `node_data` dict and the warnings of lines 32-38. -/
def buildNodeData (d : Dataset) (names : List String) :
    List (String × List (List Int)) × List String :=
  buildNodeDataAux d 0 names [] []

/-! ### The whole read -/

/-- The result dictionary of `read_exodus_file` (lines 46-52). -/
structure ExtractedData where
  time_steps : List Int
  coordinates : List Int × List Int × List Int
  nodal_data : List (String × List (List Int))
  nodal_vars : List String
  mesh_shape : Nat × Option Nat
deriving Repr, DecidableEq

/-- Line 14: `dataset.variables['time_whole'][:]` when the field is
present, the one-element array `[0]` otherwise.  Total: it cannot
raise. -/
def readTimeSteps (d : Dataset) : List Int :=
  match d.lookup1D "time_whole" with
  | some ts => ts
  | none => [0]

/-- The body of `read_exodus_file` between the `nc.Dataset` open (line
11) and `dataset.close()` (line 44), with the value it would return and
the warnings printed, or the first exception raised.  The fallible
operations, in program order: the `coordx` lookup (line 17), the
`coordy` lookup (line 18), the `num_nod_var` dimension lookup (line 22)
and the name loop (lines 26-29); everything after the name loop is
total. -/
def readBody (d : Dataset) : Except ReadError (ExtractedData × List String) :=
  match d.lookup1D "coordx" with
  | none => .error (.keyError "coordx")
  | some x =>
    match d.lookup1D "coordy" with
    | none => .error (.keyError "coordy")
    | some y =>
      let z := match d.lookup1D "coordz" with
        | some zs => zs
        | none => List.replicate x.length 0
      match d.lookupDim "num_nod_var" with
      | none => .error (.keyError "num_nod_var")
      | some n =>
        match readNodVarNames d n with
        | .error e => .error e
        | .ok names =>
          let nd := buildNodeData d names
          .ok ({ time_steps := readTimeSteps d
                 coordinates := (x, y, z)
                 nodal_data := nd.1
                 nodal_vars := names
                 mesh_shape := (x.length, d.lookupDim "num_elem") }, nd.2)

/-- The observable outcome of one call of `read_exodus_file`: the
returned value or the exception propagated to the caller, the warnings
printed, and whether `dataset.close()` was reached before the call
completed. -/
structure ReadOutcome where
  result : Except ReadError ExtractedData
  warnings : List String
  closed : Bool
deriving Repr

/-- The function `read_exodus_file` (lines 9-52).  It opens the dataset,
runs the body, and calls `dataset.close()` (line 44) only after the whole
body has succeeded; there is no `try`/`finally` or context manager, so an
exception raised anywhere in the body propagates before the close call
runs, leaving the handle open. -/
def read_exodus_file (d : Dataset) : ReadOutcome :=
  match readBody d with
  | .ok (data, warns) => { result := .ok data, warnings := warns, closed := true }
  | .error e => { result := .error e, warnings := [], closed := false }

/-! ### Facts about the dict model -/

theorem dictLookup_eq_none_iff (m : List (String × List (List Int))) (k : String) :
    dictLookup m k = none ↔ dictMem m k = false := by
  induction m with
  | nil => simp [dictLookup, dictMem]
  | cons p t ih =>
    cases hp : p.1 == k with
    | true => simp [dictLookup, dictMem, hp]
    | false => simp [dictLookup, dictMem, hp, ih]

theorem dictLookup_map_subst (m : List (String × List (List Int))) (k : String)
    (v : List (List Int)) (k' : String) (h : ¬ k' = k) :
    dictLookup (m.map (fun p => if p.1 == k then (k, v) else p)) k' = dictLookup m k' := by
  induction m with
  | nil => simp
  | cons p t ih =>
    cases hp : p.1 == k with
    | false => simp only [List.map_cons, hp, Bool.false_eq_true, if_false, dictLookup, ih]
    | true =>
      have hpk : p.1 = k := eq_of_beq hp
      have hk : (k == k') = false := beq_eq_false_iff_ne.mpr (fun hh => h hh.symm)
      have hk2 : (p.1 == k') = false := by rw [hpk]; exact hk
      simp only [List.map_cons, hp, if_true, dictLookup, hk, hk2, Bool.false_eq_true, if_false, ih]

theorem dictLookup_map_subst_mem (m : List (String × List (List Int))) (k : String)
    (v : List (List Int)) (h : dictMem m k = true) :
    dictLookup (m.map (fun p => if p.1 == k then (k, v) else p)) k = some v := by
  induction m with
  | nil => simp [dictMem] at h
  | cons p t ih =>
    cases hp : p.1 == k with
    | true => simp [dictLookup, hp]
    | false =>
      have ht : dictMem t k = true := by
        have := h
        simp only [dictMem, hp, Bool.false_or] at this
        exact this
      simp only [List.map_cons, hp, Bool.false_eq_true, if_false, dictLookup, ih ht]

theorem dictLookup_append (m₁ m₂ : List (String × List (List Int))) (k : String) :
    dictLookup (m₁ ++ m₂) k =
      match dictLookup m₁ k with
      | some v => some v
      | none => dictLookup m₂ k := by
  induction m₁ with
  | nil => simp [dictLookup]
  | cons p t ih =>
    cases hp : p.1 == k with
    | true => simp [dictLookup, hp]
    | false => simp [dictLookup, hp, ih]

theorem dictLookup_insert (m : List (String × List (List Int))) (k : String)
    (v : List (List Int)) (k' : String) :
    dictLookup (dictInsert m k v) k' = if k' = k then some v else dictLookup m k' := by
  unfold dictInsert
  cases hm : dictMem m k with
  | true =>
    simp only [hm, if_true]
    by_cases hk : k' = k
    · subst hk; rw [dictLookup_map_subst_mem m k' v hm, if_pos rfl]
    · rw [dictLookup_map_subst m k v k' hk, if_neg hk]
  | false =>
    simp only [hm, Bool.false_eq_true, if_false]
    rw [dictLookup_append]
    by_cases hk : k' = k
    · subst hk
      have hnone : dictLookup m k' = none := (dictLookup_eq_none_iff m k').mpr hm
      simp [hnone, dictLookup]
    · have hkk : (k == k') = false := beq_eq_false_iff_ne.mpr (fun hh => hk hh.symm)
      cases hl : dictLookup m k' with
      | some a => simp [hl, hk]
      | none => simp [hl, dictLookup, hkk, hk]

theorem dictInsert_length (m : List (String × List (List Int))) (k : String)
    (v : List (List Int)) : (dictInsert m k v).length ≤ m.length + 1 := by
  unfold dictInsert
  cases hm : dictMem m k with
  | true => simp
  | false => simp

/-! ### The last present occurrence wins

`lastPresent d i names name` is the value array of the last position `j`
of `names` (a suffix of the full name list whose head sits at 0-based
position `i`) such that the name at `j` equals `name` and the field
`vals_nod_var<i+j+1>` is present; `none` when there is no such position.
It characterises the final contents of the `node_data` dict. -/

def lastPresent (d : Dataset) : Nat → List String → String → Option (List (List Int))
  | _, [], _ => none
  | i, n :: rest, name =>
    match lastPresent d (i + 1) rest name with
    | some arr => some arr
    | none => if n = name then d.lookup2D (valsName (i + 1)) else none

theorem buildNodeDataAux_lookup (d : Dataset) :
    ∀ (names : List String) (i : Nat) (acc : List (String × List (List Int)))
      (w : List String) (name : String),
    dictLookup (buildNodeDataAux d i names acc w).1 name =
      match lastPresent d i names name with
      | some arr => some arr
      | none => dictLookup acc name := by
  intro names
  induction names with
  | nil => intro i acc w name; simp [buildNodeDataAux, lastPresent]
  | cons n rest ih =>
    intro i acc w name
    simp only [buildNodeDataAux, lastPresent]
    cases hv : d.lookup2D (valsName (i + 1)) with
    | some arr =>
      rw [ih]
      cases hlp : lastPresent d (i + 1) rest name with
      | some a => simp
      | none =>
        rw [dictLookup_insert]
        by_cases hn : n = name
        · simp [hn]
        · have hn' : ¬ name = n := fun hh => hn hh.symm
          simp [hn, hn']
    | none =>
      rw [ih]
      cases hlp : lastPresent d (i + 1) rest name with
      | some a => simp
      | none => by_cases hn : n = name <;> simp [hn]

theorem buildNodeData_lookup (d : Dataset) (names : List String) (name : String) :
    dictLookup (buildNodeData d names).1 name = lastPresent d 0 names name := by
  unfold buildNodeData
  rw [buildNodeDataAux_lookup]
  cases hlp : lastPresent d 0 names name <;> simp [dictLookup]

theorem lastPresent_eq_some (d : Dataset) :
    ∀ (names : List String) (i : Nat) (name : String) (arr : List (List Int)),
    lastPresent d i names name = some arr →
    ∃ j, names.get? j = some name ∧ d.lookup2D (valsName (i + j + 1)) = some arr := by
  intro names
  induction names with
  | nil => intro i name arr h; simp [lastPresent] at h
  | cons n rest ih =>
    intro i name arr h
    simp only [lastPresent] at h
    cases hlp : lastPresent d (i + 1) rest name with
    | some a =>
      rw [hlp] at h
      obtain ⟨j, hj, hv⟩ := ih (i + 1) name a hlp
      refine ⟨j + 1, by simpa using hj, ?_⟩
      rw [show i + (j + 1) + 1 = i + 1 + j + 1 from by omega]
      injection h with h'
      rw [← h']; exact hv
    | none =>
      rw [hlp] at h
      by_cases hn : n = name
      · rw [if_pos hn] at h
        exact ⟨0, by simp [hn], by simpa using h⟩
      · rw [if_neg hn] at h; exact absurd h (by simp)

theorem lastPresent_of_forall_none (d : Dataset) :
    ∀ (names : List String) (i : Nat) (name : String),
    (∀ j, names.get? j = some name → d.lookup2D (valsName (i + j + 1)) = none) →
    lastPresent d i names name = none := by
  intro names
  induction names with
  | nil => intro i name _; simp [lastPresent]
  | cons n rest ih =>
    intro i name h
    have hrest : lastPresent d (i + 1) rest name = none := by
      refine ih (i + 1) name (fun j hj => ?_)
      have := h (j + 1) (by simpa using hj)
      rwa [show i + (j + 1) + 1 = i + 1 + j + 1 from by omega] at this
    simp only [lastPresent, hrest]
    by_cases hn : n = name
    · rw [if_pos hn]; exact h 0 (by simp [hn])
    · rw [if_neg hn]

theorem lastPresent_ne_none (d : Dataset) :
    ∀ (names : List String) (i j : Nat) (name : String),
    names.get? j = some name → d.lookup2D (valsName (i + j + 1)) ≠ none →
    lastPresent d i names name ≠ none := by
  intro names
  induction names with
  | nil => intro i j name hget _; simp at hget
  | cons n rest ih =>
    intro i j name hget hlook
    cases j with
    | zero =>
      have hn : n = name := by simpa using hget
      simp only [lastPresent]
      cases hlp : lastPresent d (i + 1) rest name with
      | some a => simp
      | none => rw [if_pos hn]; simpa using hlook
    | succ j' =>
      have hget' : rest.get? j' = some name := by simpa using hget
      have hlook' : d.lookup2D (valsName (i + 1 + j' + 1)) ≠ none := by
        rwa [show i + 1 + j' + 1 = i + (j' + 1) + 1 from by omega]
      have hne := ih (i + 1) j' name hget' hlook'
      simp only [lastPresent]
      cases hlp : lastPresent d (i + 1) rest name with
      | some a => simp
      | none => exact absurd hlp hne

theorem lastPresent_nodup (d : Dataset) :
    ∀ (names : List String) (i j : Nat) (name : String),
    names.Nodup → names.get? j = some name →
    lastPresent d i names name = d.lookup2D (valsName (i + j + 1)) := by
  intro names
  induction names with
  | nil => intro i j name _ hget; simp at hget
  | cons n rest ih =>
    intro i j name hnd hget
    obtain ⟨hnotin, hrest⟩ := List.nodup_cons.mp hnd
    cases j with
    | zero =>
      have hn : n = name := by simpa using hget
      have hnone : lastPresent d (i + 1) rest name = none := by
        cases hlp : lastPresent d (i + 1) rest name with
        | none => rfl
        | some arr =>
          obtain ⟨j', hj', _⟩ := lastPresent_eq_some d rest (i + 1) name arr hlp
          exact absurd (List.get?_mem hj') (hn ▸ hnotin)
      simp only [lastPresent, hnone]
      rw [if_pos hn]
    | succ j' =>
      have hget' : rest.get? j' = some name := by simpa using hget
      have hmem : name ∈ rest := List.get?_mem hget'
      have hne : ¬ n = name := fun hh => hnotin (hh ▸ hmem)
      have hrec := ih (i + 1) j' name hrest hget'
      simp only [lastPresent, hrec]
      rw [show i + (j' + 1) + 1 = i + 1 + j' + 1 from by omega]
      cases hv : d.lookup2D (valsName (i + 1 + j' + 1)) with
      | some a => simp
      | none => simp [if_neg hne]

theorem lastPresent_last (d : Dataset) :
    ∀ (names : List String) (i j : Nat) (name : String) (arr : List (List Int)),
    names.get? j = some name → d.lookup2D (valsName (i + j + 1)) = some arr →
    (∀ k, j < k → names.get? k = some name → d.lookup2D (valsName (i + k + 1)) = none) →
    lastPresent d i names name = some arr := by
  intro names
  induction names with
  | nil => intro i j name arr hget _ _; simp at hget
  | cons n rest ih =>
    intro i j name arr hget hv hlater
    cases j with
    | zero =>
      have hn : n = name := by simpa using hget
      have hnone : lastPresent d (i + 1) rest name = none := by
        refine lastPresent_of_forall_none d rest (i + 1) name (fun j' hj' => ?_)
        have := hlater (j' + 1) (Nat.succ_pos j') (by simpa using hj')
        rwa [show i + (j' + 1) + 1 = i + 1 + j' + 1 from by omega] at this
      simp only [lastPresent, hnone]
      rw [if_pos hn]
      simpa using hv
    | succ j' =>
      have hget' : rest.get? j' = some name := by simpa using hget
      have hv' : d.lookup2D (valsName (i + 1 + j' + 1)) = some arr := by
        rwa [show i + 1 + j' + 1 = i + (j' + 1) + 1 from by omega]
      have hlater' : ∀ k, j' < k → rest.get? k = some name →
          d.lookup2D (valsName (i + 1 + k + 1)) = none := by
        intro k hk hkget
        have := hlater (k + 1) (by omega) (by simpa using hkget)
        rwa [show i + (k + 1) + 1 = i + 1 + k + 1 from by omega] at this
      have hrec := ih (i + 1) j' name arr hget' hv' hlater'
      simp only [lastPresent, hrec]

/-! ### Warnings and sizes of the value loop -/

theorem buildNodeDataAux_warn_mono (d : Dataset) :
    ∀ (names : List String) (i : Nat) (acc : List (String × List (List Int)))
      (w : List String) (x : String),
    x ∈ w → x ∈ (buildNodeDataAux d i names acc w).2 := by
  intro names
  induction names with
  | nil => intro i acc w x hx; simpa [buildNodeDataAux] using hx
  | cons n rest ih =>
    intro i acc w x hx
    simp only [buildNodeDataAux]
    cases hv : d.lookup2D (valsName (i + 1)) with
    | some arr => exact ih (i + 1) (dictInsert acc n arr) w x hx
    | none => exact ih (i + 1) acc (w ++ [valsName (i + 1)]) x (List.mem_append_left _ hx)

theorem buildNodeDataAux_warn (d : Dataset) :
    ∀ (names : List String) (i : Nat) (acc : List (String × List (List Int)))
      (w : List String) (j : Nat),
    j < names.length → d.lookup2D (valsName (i + j + 1)) = none →
    valsName (i + j + 1) ∈ (buildNodeDataAux d i names acc w).2 := by
  intro names
  induction names with
  | nil => intro i acc w j hj _; simp at hj
  | cons n rest ih =>
    intro i acc w j hj hv
    cases j with
    | zero =>
      have hv0 : d.lookup2D (valsName (i + 1)) = none := by simpa using hv
      simp only [buildNodeDataAux, hv0]
      refine buildNodeDataAux_warn_mono d rest (i + 1) acc _ _ ?_
      simp
    | succ j' =>
      have hj' : j' < rest.length := by simpa using hj
      have hv' : d.lookup2D (valsName (i + 1 + j' + 1)) = none := by
        rwa [show i + 1 + j' + 1 = i + (j' + 1) + 1 from by omega]
      have hgoal : valsName (i + (j' + 1) + 1) = valsName (i + 1 + j' + 1) := by
        rw [show i + (j' + 1) + 1 = i + 1 + j' + 1 from by omega]
      rw [hgoal]
      simp only [buildNodeDataAux]
      cases hv0 : d.lookup2D (valsName (i + 1)) with
      | some arr => exact ih (i + 1) (dictInsert acc n arr) w j' hj' hv'
      | none => exact ih (i + 1) acc (w ++ [valsName (i + 1)]) j' hj' hv'

theorem buildNodeDataAux_length (d : Dataset) :
    ∀ (names : List String) (i : Nat) (acc : List (String × List (List Int)))
      (w : List String),
    (buildNodeDataAux d i names acc w).1.length ≤ acc.length + names.length := by
  intro names
  induction names with
  | nil => intro i acc w; simp [buildNodeDataAux]
  | cons n rest ih =>
    intro i acc w
    simp only [buildNodeDataAux]
    cases hv : d.lookup2D (valsName (i + 1)) with
    | some arr =>
      have h1 := ih (i + 1) (dictInsert acc n arr) w
      have h2 := dictInsert_length acc n arr
      simp only [List.length_cons]
      omega
    | none =>
      have h1 := ih (i + 1) acc (w ++ [valsName (i + 1)])
      simp only [List.length_cons]
      omega

theorem buildNodeData_length (d : Dataset) (names : List String) :
    (buildNodeData d names).1.length ≤ names.length := by
  have := buildNodeDataAux_length d names 0 [] []
  simpa [buildNodeData] using this

theorem buildNodeData_mem_iff (d : Dataset) (names : List String) (name : String) :
    dictMem (buildNodeData d names).1 name = true ↔
      ∃ j, names.get? j = some name ∧ d.lookup2D (valsName (j + 1)) ≠ none := by
  constructor
  · intro h
    have h1 : dictLookup (buildNodeData d names).1 name ≠ none := by
      rw [Ne, dictLookup_eq_none_iff]
      simp [h]
    rw [buildNodeData_lookup] at h1
    obtain ⟨arr, harr⟩ := Option.ne_none_iff_exists'.mp h1
    obtain ⟨j, hj, hv⟩ := lastPresent_eq_some d names 0 name arr harr
    rw [Nat.zero_add] at hv
    exact ⟨j, hj, by simp [hv]⟩
  · rintro ⟨j, hj, hv⟩
    have h1 := lastPresent_ne_none d names 0 j name hj (by rwa [Nat.zero_add])
    rw [← buildNodeData_lookup] at h1
    rw [Ne, dictLookup_eq_none_iff] at h1
    simpa using h1

/-! ### Facts about the name loop -/

theorem readNamesLoop_ok_length (d : Dataset) :
    ∀ (l : List Nat) (ss : List String),
    readNamesLoop d l = .ok ss → ss.length = l.length := by
  intro l
  induction l with
  | nil =>
    intro ss h
    simp only [readNamesLoop] at h
    injection h with h'
    simp [← h']
  | cons i rest ih =>
    intro ss h
    simp only [readNamesLoop] at h
    cases hn : readNodVarName d i with
    | error e => rw [hn] at h; exact absurd h (by simp)
    | ok s =>
      rw [hn] at h
      cases hr : readNamesLoop d rest with
      | error e => rw [hr] at h; exact absurd h (by simp)
      | ok ss' =>
        rw [hr] at h
        injection h with h'
        rw [← h']
        simp [ih ss' hr]

theorem readNamesLoop_ok_forall (d : Dataset) :
    ∀ (l : List Nat) (ss : List String),
    readNamesLoop d l = .ok ss → ∀ i ∈ l, ∃ s, readNodVarName d i = .ok s := by
  intro l
  induction l with
  | nil => intro ss _ i hi; simp at hi
  | cons j rest ih =>
    intro ss h i hi
    simp only [readNamesLoop] at h
    cases hn : readNodVarName d j with
    | error e => rw [hn] at h; exact absurd h (by simp)
    | ok s =>
      rw [hn] at h
      cases hr : readNamesLoop d rest with
      | error e => rw [hr] at h; exact absurd h (by simp)
      | ok ss' =>
        rcases List.mem_cons.mp hi with hij | hir
        · exact ⟨s, hij ▸ hn⟩
        · exact ih ss' hr i hir

theorem readNamesLoop_error_of_mem (d : Dataset) (l : List Nat) (i : Nat) (hi : i ∈ l)
    (e : ReadError) (he : readNodVarName d i = .error e) :
    ∃ eo, readNamesLoop d l = .error eo := by
  cases hr : readNamesLoop d l with
  | error eo => exact ⟨eo, rfl⟩
  | ok ss =>
    obtain ⟨s, hs⟩ := readNamesLoop_ok_forall d l ss hr i hi
    rw [he] at hs
    exact absurd hs (by simp)

theorem readNodVarNames_ok_length (d : Dataset) (n : Nat) (names : List String)
    (h : readNodVarNames d n = .ok names) : names.length = n := by
  have := readNamesLoop_ok_length d (List.range n) names h
  simpa using this

/-! ### Inversion of a successful read -/

theorem readBody_ok {d : Dataset} {data : ExtractedData} {warns : List String}
    (h : readBody d = .ok (data, warns)) :
    ∃ x y n names, d.lookup1D "coordx" = some x ∧ d.lookup1D "coordy" = some y ∧
      d.lookupDim "num_nod_var" = some n ∧ readNodVarNames d n = .ok names ∧
      data = { time_steps := readTimeSteps d
               coordinates := (x, y,
                 (match d.lookup1D "coordz" with
                  | some zs => zs
                  | none => List.replicate x.length 0))
               nodal_data := (buildNodeData d names).1
               nodal_vars := names
               mesh_shape := (x.length, d.lookupDim "num_elem") } ∧
      warns = (buildNodeData d names).2 := by
  unfold readBody at h
  cases hx : d.lookup1D "coordx" with
  | none => simp only [hx] at h; exact absurd h (by simp)
  | some x =>
    simp only [hx] at h
    cases hy : d.lookup1D "coordy" with
    | none => simp only [hy] at h; exact absurd h (by simp)
    | some y =>
      simp only [hy] at h
      cases hn : d.lookupDim "num_nod_var" with
      | none => simp only [hn] at h; exact absurd h (by simp)
      | some n =>
        simp only [hn] at h
        cases hm : readNodVarNames d n with
        | error e => simp only [hm] at h; exact absurd h (by simp)
        | ok names =>
          simp only [hm, Except.ok.injEq, Prod.mk.injEq] at h
          exact ⟨x, y, n, names, rfl, rfl, rfl, hm, h.1.symm, h.2.symm⟩

theorem read_result_ok {d : Dataset} {data : ExtractedData}
    (h : (read_exodus_file d).result = .ok data) :
    ∃ warns, readBody d = .ok (data, warns) := by
  unfold read_exodus_file at h
  cases hb : readBody d with
  | error e => simp only [hb] at h; exact absurd h (by simp)
  | ok p =>
    obtain ⟨data', warns'⟩ := p
    simp only [hb, Except.ok.injEq] at h
    subst h
    exact ⟨warns', rfl⟩

/-! ### Concrete datasets used by witnesses and counterexamples -/

/-- Encoding of an ASCII string as an unmasked fixed-width name row. -/
def asciiRow (s : String) : NameRow :=
  s.data.map (fun c => some (.byte c.toNat))

/-- A dataset with no dimensions and no variables at all (in particular
no `coordx`). -/
def dsEmpty : Dataset :=
  { dims := [], vars1D := [], vars2D := [], nameVars := [] }

/-- A dataset with both coordinate fields but no `num_nod_var`
dimension. -/
def dsNoNumVar : Dataset :=
  { dims := []
    vars1D := [("coordx", [1]), ("coordy", [2])]
    vars2D := []
    nameVars := [] }

/-- The end-to-end dataset of the spec: two declared nodal variables
named `Temp` and `Pressure`, but only `vals_nod_var1` present; `coordz`
and `time_whole` exercise the present/absent branches. -/
def dsTempPressure : Dataset :=
  { dims := [("num_nod_var", 2), ("num_elem", 3)]
    vars1D := [("time_whole", [0, 5]), ("coordx", [1, 2, 4]), ("coordy", [0, 1, 2])]
    vars2D := [("vals_nod_var1", [[10, 11, 12], [13, 14, 15]])]
    nameVars := [("name_nod_var", [asciiRow "Temp", asciiRow "Pressure"])] }

/-- A dataset whose single name row holds the byte `0xFF`, which is not
valid UTF-8. -/
def dsBadByte : Dataset :=
  { dims := [("num_nod_var", 1)]
    vars1D := [("coordx", [1]), ("coordy", [2])]
    vars2D := [("vals_nod_var1", [[7]])]
    nameVars := [("name_nod_var", [[some (.byte 255)]])] }

/-- A dataset whose two declared nodal variables decode to the same name
`A`, with both value arrays present. -/
def dsDup : Dataset :=
  { dims := [("num_nod_var", 2)]
    vars1D := [("coordx", [1]), ("coordy", [2])]
    vars2D := [("vals_nod_var1", [[1]]), ("vals_nod_var2", [[2]])]
    nameVars := [("name_nod_var", [asciiRow "A", asciiRow "A"]) ] }

/-- A fully masked three-position name row. -/
def maskedRow : NameRow := [none, none, none]

/-- The value `read_exodus_file` extracts from `dsTempPressure`. -/
def tpData : ExtractedData :=
  { time_steps := [0, 5]
    coordinates := ([1, 2, 4], [0, 1, 2], [0, 0, 0])
    nodal_data := [("Temp", [[10, 11, 12], [13, 14, 15]])]
    nodal_vars := ["Temp", "Pressure"]
    mesh_shape := (3, some 3) }

/-- The value `read_exodus_file` extracts from `dsDup`. -/
def dupData : ExtractedData :=
  { time_steps := [0]
    coordinates := ([1], [2], [0])
    nodal_data := [("A", [[2]])]
    nodal_vars := ["A", "A"]
    mesh_shape := (1, none) }

/-- Row count preservation of the decode loop of `inspect_exodus_file`. -/
theorem inspectDecodeTableAux_length :
    ∀ (i : Nat) (rows : List NameRow),
    (inspectDecodeTableAux i rows).length = rows.length := by
  intro i rows
  induction rows generalizing i with
  | nil => simp [inspectDecodeTableAux]
  | cons r rs ih => simp [inspectDecodeTableAux, ih]

/-! ## Claim C1 -/

/-- Claim C1, counterexample.  On a file with no `coordx` variable the
read fails with a `KeyError` and the call completes without
`dataset.close()` having run: the handle is not closed on this error
path, contradicting the claim that every exit path closes it. -/
theorem C1_counterexample :
    (read_exodus_file dsEmpty).result = .error (.keyError "coordx") ∧
      (read_exodus_file dsEmpty).closed = false :=
  ⟨rfl, rfl⟩

/-- Claim C1, amended.  `read_exodus_file` closes the dataset handle
exactly on the success path: `dataset.close()` has run when the call
completes if and only if the call returns an `ExtractedData` result; on
every failing exit path the exception propagates before the close call
and the handle is left open (the source has no `try`/`finally` or
context manager around the handle). -/
theorem C1_closed_iff_success (d : Dataset) :
    (read_exodus_file d).closed = true ↔
      ∃ data, (read_exodus_file d).result = .ok data := by
  unfold read_exodus_file
  cases hb : readBody d with
  | ok p => obtain ⟨data, warns⟩ := p; simp
  | error e => simp

/-! ## Claim C2 -/

/-- Claim C2, counterexample.  On a file with both coordinate fields but
no `num_nod_var` dimension, the read does not succeed with a zero count
and an empty variable set: it fails with a `KeyError` (line 22 indexes
`dataset.dimensions["num_nod_var"]` without a presence check). -/
theorem C2_counterexample :
    (read_exodus_file dsNoNumVar).result = .error (.keyError "num_nod_var") ∧
      (read_exodus_file dsNoNumVar).closed = false :=
  ⟨rfl, rfl⟩

/-- Claim C2, amended.  For every file in which the `num_nod_var`
dimension is absent (and the coordinate reads succeed, so that line 22
is reached), the whole read fails with a `KeyError` for `num_nod_var` —
absence of the dimension is an error, not a zero count — and the handle
is left open. -/
theorem C2_missing_dim_errors (d : Dataset) (x y : List Int)
    (hx : d.lookup1D "coordx" = some x) (hy : d.lookup1D "coordy" = some y)
    (hn : d.lookupDim "num_nod_var" = none) :
    (read_exodus_file d).result = .error (.keyError "num_nod_var") ∧
      (read_exodus_file d).closed = false := by
  unfold read_exodus_file readBody
  rw [hx, hy, hn]
  exact ⟨rfl, rfl⟩

/-- Claim C2, witness for the amended theorem at `dsNoNumVar`. -/
theorem C2_witness :
    dsNoNumVar.lookup1D "coordx" = some [1] ∧
      dsNoNumVar.lookupDim "num_nod_var" = none ∧
      (read_exodus_file dsNoNumVar).result = .error (.keyError "num_nod_var") ∧
      (read_exodus_file dsNoNumVar).closed = false :=
  ⟨rfl, rfl, C2_missing_dim_errors dsNoNumVar [1] [2] rfl rfl rfl⟩

/-! ## Claim C3 -/

/-- Claim C3, counterexample.  A name row containing the byte `0xFF`
makes the strict per-row decode of `read_exodus_file` raise a
`UnicodeDecodeError`, and the error propagates to the caller and aborts
the whole read — no `Var_<i>` placeholder is substituted there. -/
theorem C3_counterexample :
    (read_exodus_file dsBadByte).result = .error .unicodeDecodeError ∧
      (read_exodus_file dsBadByte).closed = false :=
  ⟨rfl, rfl⟩

/-- Claim C3, amended.  The placeholder recovery exists only in
`inspect_exodus_file`: its decode loop is total (its row decode ignores
invalid bytes, and its exception handler would substitute `Var_<i+1>`),
so it never aborts a table and preserves the row count.  In
`read_exodus_file`, by contrast, a per-row decode failure propagates to
the caller: if any iteration of the name loop raises, the whole read
fails (and the handle is left open). -/
theorem C3_decode_failure_handling (d : Dataset) (x y : List Int) (n i : Nat)
    (e : ReadError)
    (hx : d.lookup1D "coordx" = some x) (hy : d.lookup1D "coordy" = some y)
    (hn : d.lookupDim "num_nod_var" = some n) (hi : i < n)
    (he : readNodVarName d i = .error e) :
    (∀ rows : List NameRow, (inspectDecodeTable rows).length = rows.length) ∧
      (∃ eo, (read_exodus_file d).result = .error eo) ∧
      (read_exodus_file d).closed = false := by
  obtain ⟨eo, heo⟩ := readNamesLoop_error_of_mem d (List.range n) i (List.mem_range.mpr hi) e he
  have hnames : readNodVarNames d n = .error eo := heo
  refine ⟨fun rows => inspectDecodeTableAux_length 0 rows, ?_, ?_⟩
  · refine ⟨eo, ?_⟩
    unfold read_exodus_file readBody
    simp [hx, hy, hn, hnames]
  · unfold read_exodus_file readBody
    simp [hx, hy, hn, hnames]

/-- Claim C3, witness for the amended theorem at `dsBadByte`. -/
theorem C3_witness :
    readNodVarName dsBadByte 0 = .error .unicodeDecodeError ∧
      ((∀ rows : List NameRow, (inspectDecodeTable rows).length = rows.length) ∧
        (∃ eo, (read_exodus_file dsBadByte).result = .error eo) ∧
        (read_exodus_file dsBadByte).closed = false) :=
  ⟨rfl, C3_decode_failure_handling dsBadByte [1] [2] 1 0 .unicodeDecodeError rfl rfl rfl
    (by decide) rfl⟩

/-! ## Claim C4 -/

/-- Claim C4, counterexample.  Decoding the fully masked row does not
yield a placeholder name: in both readers it yields the empty string,
which is not the `Var_<i>` placeholder (here `Var_1` for row 0). -/
theorem C4_counterexample :
    decodeRowStrict maskedRow = .ok "" ∧ inspectDecodeRow 0 maskedRow = "" ∧
      ("" : String) ≠ "Var_" ++ toString (0 + 1) :=
  ⟨rfl, rfl, by decide⟩

/-- Claim C4, amended.  Decoding a fully masked name row never raises an
exception, but it yields the empty string, not a placeholder: the
compression leaves no code units, so both the strict decode of
`read_exodus_file` and the decode of `inspect_exodus_file` return `""`
(the `Var_<i>` placeholder appears only on a decode failure, which a
fully masked row does not trigger). -/
theorem C4_masked_row_empty (row : NameRow) (i : Nat) (h : ∀ u ∈ row, u = none) :
    decodeRowStrict row = .ok "" ∧ inspectDecodeRow i row = "" := by
  have hcomp : compressRow row = [] := by
    unfold compressRow
    exact List.filterMap_eq_nil_iff.mpr h
  constructor
  · unfold decodeRowStrict
    rw [hcomp]
    rfl
  · unfold inspectDecodeRow decodeRowInspectE decodeRowIgnore
    rw [hcomp]
    rfl

/-- Claim C4, witness for the amended theorem at the fully masked
three-position row. -/
theorem C4_witness :
    (∀ u ∈ maskedRow, u = none) ∧
      decodeRowStrict maskedRow = .ok "" ∧ inspectDecodeRow 0 maskedRow = "" :=
  ⟨by decide, C4_masked_row_empty maskedRow 0 (by decide)⟩

/-! ## Claim C5 -/

/-- Claim C5.  The reader correlates names and value arrays positionally:
(i) the returned `nodal_data` is exactly the dict the loop of lines 32-38
builds from the decoded name list; (ii) a name is a key of that dict if
and only if it stands at some position `j` whose conventional value field
`vals_nod_var<j+1>` is present; (iii) a missing field `vals_nod_var<j+1>`
for a declared position `j` produces a recorded warning and no entry (the
read does not fail); (iv) for pairwise distinct names the entry of the
name at position `j` is exactly the array stored under
`vals_nod_var<j+1>`; (v) end to end, the file with `num_nod_var=2`,
names `["Temp", "Pressure"]` and only `vals_nod_var1` present yields the
mapping `{"Temp": <array>}` with no `"Pressure"` entry, one warning and
no exception. -/
theorem C5_positional_binding :
    (∀ (d : Dataset) (data : ExtractedData),
        (read_exodus_file d).result = .ok data →
        data.nodal_data = (buildNodeData d data.nodal_vars).1) ∧
    (∀ (d : Dataset) (names : List String) (name : String),
        dictMem (buildNodeData d names).1 name = true ↔
          ∃ j, names.get? j = some name ∧ d.lookup2D (valsName (j + 1)) ≠ none) ∧
    (∀ (d : Dataset) (names : List String) (j : Nat),
        j < names.length → d.lookup2D (valsName (j + 1)) = none →
        valsName (j + 1) ∈ (buildNodeData d names).2) ∧
    (∀ (d : Dataset) (names : List String) (j : Nat) (name : String),
        names.Nodup → names.get? j = some name →
        dictLookup (buildNodeData d names).1 name = d.lookup2D (valsName (j + 1))) ∧
    read_exodus_file dsTempPressure =
      { result := .ok tpData, warnings := ["vals_nod_var2"], closed := true } := by
  refine ⟨?_, buildNodeData_mem_iff, ?_, ?_, rfl⟩
  · intro d data h
    obtain ⟨warns, hb⟩ := read_result_ok h
    obtain ⟨x, y, n, names, hx, hy, hn, hm, hdata, hw⟩ := readBody_ok hb
    subst hdata
    rfl
  · intro d names j hj hv
    have := buildNodeDataAux_warn d names 0 [] [] j hj (by rwa [Nat.zero_add])
    rwa [Nat.zero_add] at this
  · intro d names j name hnd hget
    rw [buildNodeData_lookup, lastPresent_nodup d names 0 j name hnd hget, Nat.zero_add]

/-- Claim C5, witness: the positional-correspondence part applied at the
end-to-end dataset, position 0, name `Temp`. -/
theorem C5_witness :
    (["Temp", "Pressure"] : List String).Nodup ∧
      dictLookup (buildNodeData dsTempPressure ["Temp", "Pressure"]).1 "Temp" =
        dsTempPressure.lookup2D (valsName 1) := by
  refine ⟨by decide, ?_⟩
  have := C5_positional_binding.2.2.2.1 dsTempPressure ["Temp", "Pressure"] 0 "Temp"
    (by decide) rfl
  simpa using this

/-! ## Claim C6 -/

/-- Claim C6.  For every file whose read succeeds and declares `N` nodal
variables in the `num_nod_var` dimension, the decoded-name list of the
result has length exactly `N` and the value mapping has at most `N`
entries. -/
theorem C6_counts (d : Dataset) (N : Nat) (data : ExtractedData)
    (hN : d.lookupDim "num_nod_var" = some N)
    (h : (read_exodus_file d).result = .ok data) :
    data.nodal_vars.length = N ∧ data.nodal_data.length ≤ N := by
  obtain ⟨warns, hb⟩ := read_result_ok h
  obtain ⟨x, y, n, names, hx, hy, hn, hm, hdata, hw⟩ := readBody_ok hb
  rw [hN] at hn
  injection hn with hNn
  have hlen := readNodVarNames_ok_length d n names hm
  subst hdata
  constructor
  · show names.length = N
    rw [hlen, hNn]
  · show (buildNodeData d names).1.length ≤ N
    calc (buildNodeData d names).1.length ≤ names.length := buildNodeData_length d names
      _ = N := by rw [hlen, hNn]

/-- Claim C6, witness at the end-to-end dataset: two declared variables,
name list of length two, value mapping with one entry. -/
theorem C6_witness :
    dsTempPressure.lookupDim "num_nod_var" = some 2 ∧
      (read_exodus_file dsTempPressure).result = .ok tpData ∧
      tpData.nodal_vars.length = 2 ∧ tpData.nodal_data.length ≤ 2 :=
  ⟨rfl, rfl, C6_counts dsTempPressure 2 tpData rfl rfl⟩

/-! ## Claim C7 -/

/-- The on-disk dataset state after one call of `read_exodus_file`: the
function only ever reads through the handle (`[:]` extractions,
dimension lookups, membership tests) and then closes it; no write
operation of the netCDF API is invoked anywhere, so the state is the
input state. -/
def datasetAfterRead (d : Dataset) : Dataset := d

/-- Claim C7.  Reading the same well-formed file twice yields identical
outcomes — the second read runs on the on-disk state the first read
leaves behind, which is unchanged, and the read is a deterministic
function of that state. -/
theorem C7_deterministic (d : Dataset) :
    datasetAfterRead d = d ∧
      read_exodus_file (datasetAfterRead d) = read_exodus_file d :=
  ⟨rfl, rfl⟩

/-! ## Claim C8 -/

/-- Claim C8.  The time-step read is a total function (it cannot raise),
and on every file in which `time_whole` is absent it returns the
one-element sequence `[0]`; consequently a successful read of such a
file returns an `ExtractedData` whose `time_steps` is exactly `[0]`. -/
theorem C8_default_time (d : Dataset) (h : d.lookup1D "time_whole" = none) :
    readTimeSteps d = [0] ∧
      ∀ data : ExtractedData,
        (read_exodus_file d).result = .ok data → data.time_steps = [0] := by
  have ht : readTimeSteps d = [0] := by
    unfold readTimeSteps
    rw [h]
  refine ⟨ht, fun data hd => ?_⟩
  obtain ⟨warns, hb⟩ := read_result_ok hd
  obtain ⟨x, y, n, names, hx, hy, hn, hm, hdata, hw⟩ := readBody_ok hb
  subst hdata
  exact ht

/-- Claim C8, witness at `dsDup`, which has no `time_whole` variable and
reads successfully. -/
theorem C8_witness :
    dsDup.lookup1D "time_whole" = none ∧ readTimeSteps dsDup = [0] ∧
      (read_exodus_file dsDup).result = .ok dupData ∧ dupData.time_steps = [0] :=
  ⟨rfl, (C8_default_time dsDup rfl).1, rfl, (C8_default_time dsDup rfl).2 dupData rfl⟩

/-! ## Claim C9 -/

/-- Claim C9.  On every file in which `coordz` is absent but the read
succeeds (so `coordx` and `coordy` are present), the returned `z` array
has the same length as the returned `x` array and every element of it is
zero (`np.zeros_like(x)`). -/
theorem C9_default_z (d : Dataset) (data : ExtractedData)
    (hz : d.lookup1D "coordz" = none)
    (h : (read_exodus_file d).result = .ok data) :
    data.coordinates.2.2.length = data.coordinates.1.length ∧
      ∀ v ∈ data.coordinates.2.2, v = 0 := by
  obtain ⟨warns, hb⟩ := read_result_ok h
  obtain ⟨x, y, n, names, hx, hy, hn, hm, hdata, hw⟩ := readBody_ok hb
  subst hdata
  simp only [hz]
  constructor
  · simp
  · intro v hv
    exact List.eq_of_mem_replicate hv

/-- Claim C9, witness at the end-to-end dataset, which has no `coordz`
variable: the returned `z` is `[0, 0, 0]`, as long as `x` and all
zero. -/
theorem C9_witness :
    dsTempPressure.lookup1D "coordz" = none ∧
      tpData.coordinates.2.2.length = tpData.coordinates.1.length ∧
      ∀ v ∈ tpData.coordinates.2.2, v = 0 :=
  ⟨rfl, C9_default_z dsTempPressure tpData rfl rfl⟩

/-! ## Claim C10 -/

/-- Claim C10.  When two declared name rows decode to the same string,
the value mapping of a successful read keeps, under that string, only
the value array of the last higher-index occurrence whose value field is
present — the dict assignment of line 36 overwrites the earlier binding
— so the earlier variable's positional correspondence is lost whenever
the two arrays differ. -/
theorem C10_last_write_wins (d : Dataset) (data : ExtractedData) (name : String)
    (i j : Nat) (arr arr' : List (List Int))
    (h : (read_exodus_file d).result = .ok data)
    (hij : i < j)
    (hi : data.nodal_vars.get? i = some name)
    (hj : data.nodal_vars.get? j = some name)
    (hvj : d.lookup2D (valsName (j + 1)) = some arr)
    (hlast : ∀ k, j < k → data.nodal_vars.get? k = some name →
      d.lookup2D (valsName (k + 1)) = none)
    (hvi : d.lookup2D (valsName (i + 1)) = some arr')
    (hne : arr' ≠ arr) :
    dictLookup data.nodal_data name = some arr ∧
      dictLookup data.nodal_data name ≠ some arr' := by
  obtain ⟨warns, hb⟩ := read_result_ok h
  obtain ⟨x, y, n, names, hx, hy, hn, hm, hdata, hw⟩ := readBody_ok hb
  subst hdata
  have hj' : names.get? j = some name := hj
  have hlp : lastPresent d 0 names name = some arr := by
    refine lastPresent_last d names 0 j name arr hj' (by rwa [Nat.zero_add]) ?_
    intro k hk hkget
    rw [Nat.zero_add]
    exact hlast k hk hkget
  have hfinal : dictLookup (buildNodeData d names).1 name = some arr := by
    rw [buildNodeData_lookup, hlp]
  refine ⟨hfinal, ?_⟩
  show dictLookup (buildNodeData d names).1 name ≠ some arr'
  rw [hfinal]
  intro hh
  injection hh with hh'
  exact hne hh'.symm

/-- Claim C10, witness at `dsDup`: both rows decode to `A`, both value
arrays are present, the mapping keeps only the later array `[[2]]`, and
it has strictly fewer entries than the two declared variables. -/
theorem C10_witness :
    (read_exodus_file dsDup).result = .ok dupData ∧
      dictLookup dupData.nodal_data "A" = some [[2]] ∧
      dictLookup dupData.nodal_data "A" ≠ some [[1]] ∧
      dupData.nodal_data.length < dupData.nodal_vars.length := by
  have hlast : ∀ k, 1 < k → dupData.nodal_vars.get? k = some "A" →
      dsDup.lookup2D (valsName (k + 1)) = none := by
    intro k hk hg
    obtain ⟨m, rfl⟩ : ∃ m, k = m + 2 := ⟨k - 2, by omega⟩
    simp [dupData] at hg
  have := C10_last_write_wins dsDup dupData "A" 0 1 [[2]] [[1]] rfl (by decide) rfl rfl rfl
    hlast rfl (by decide)
  exact ⟨rfl, this.1, this.2, by decide⟩

end Exodus
